import Mathlib

/-!
Shallow embedding of the BLE advertisement capture/replay tool
(src/capture.py, class BLEPacketCapture).

Bytes are modelled as `Nat` values; the input domain supplies genuine
bytes (< 256) for all data buffers (Python `bytes`) and 16-bit company
identifiers for manufacturer data (as the data model states), so the
explicit `% 256` / `% 65536` masks below coincide with `struct.pack('<H', ·)`
and `f-string` hex formatting on every input the program receives.
-/

namespace BLECapture

/-- Observation input: the bleak `device` argument (address, optional name).
An absent name models Python `None`. -/
structure Device where
  address : String
  name : Option String
  deriving DecidableEq

/-- Observation input: the bleak `advertisement_data` argument.
`service_data` keys are UUID strings, `manufacturer_data` keys are
company identifiers (16-bit per the BLE data model). Mappings are kept
in iteration (encounter) order as association lists. -/
structure AdvData where
  rssi : Int
  service_uuids : List String
  service_data : List (String × List Nat)
  manufacturer_data : List (Nat × List Nat)
  deriving DecidableEq

/-- A dictionary produced by `parse_advertisement_data` and stored in
`self.captured_packets`. The timestamp string is abstracted to a `Nat`
tick; `hci_cmd` is `""` exactly when no command was generated. -/
structure Packet where
  timestamp : Nat
  address : String
  name : String
  rssi : Int
  raw_data : List Nat
  hci_cmd : String
  deriving DecidableEq

/-- Hex-digit test for one character, as accepted by Python `int(s, 16)`
for the plain hex-digit strings that BLE UUIDs use. -/
def isHexDig (c : Char) : Bool :=
  c.isDigit || ('a' ≤ c && c ≤ 'f') || ('A' ≤ c && c ≤ 'F')

/-- Numeric value of a hex digit. -/
def hexDigVal (c : Char) : Nat :=
  if c.isDigit then c.toNat - 48
  else if 'a' ≤ c then c.toNat - 87
  else c.toNat - 55

/-- Embedding of Python `int(s, 16)` on the plain hex-digit strings BLE
UUIDs consist of: succeeds iff `s` is non-empty and all characters are
hex digits, returning the base-16 value; any other string raises in
Python, modelled as `none`. -/
def hexVal? (s : String) : Option Nat :=
  if s.data ≠ [] ∧ s.data.all isHexDig = true then
    some (s.data.foldl (fun a c => a * 16 + hexDigVal c) 0)
  else none

/-- Embedding of `s.split('-')[0]`: the characters before the first dash
(the whole string when there is no dash). -/
def firstDashGroup (s : String) : String :=
  ⟨s.data.takeWhile (fun c => c ≠ '-')⟩

/-- UUID parsing in the Service UUIDs branch (capture.py lines 41-49):
a 36-character string takes its first dash-delimited group, any other
string is parsed whole; the result is masked with `& 0xFFFF`. `none`
models the exception swallowed by `except: pass`. -/
def parse16? (s : String) : Option Nat :=
  if s.length = 36 then (hexVal? (firstDashGroup s)).map (fun v => v % 65536)
  else (hexVal? s).map (fun v => v % 65536)

/-- UUID parsing in the Service Data branch (capture.py line 57):
`int(uuid_str.split('-')[0], 16) & 0xFFFF`, with no length-36 check. -/
def sdParse16? (s : String) : Option Nat :=
  (hexVal? (firstDashGroup s)).map (fun v => v % 65536)

/-- Embedding of `struct.pack('<H', v)` (little-endian 16-bit) as a byte
list; exact for `v < 65536`, which every packed value here satisfies
(UUID values are masked with `& 0xFFFF`, company ids are 16-bit). -/
def pack16 (v : Nat) : List Nat :=
  [v % 256, v / 256 % 256]

/-- UTF-8 encoding of one Unicode scalar value, as Python
`str.encode('utf-8')` produces per character. -/
def utf8Bytes (c : Char) : List Nat :=
  let n := c.toNat
  if n < 0x80 then [n]
  else if n < 0x800 then [0xC0 + n / 64, 0x80 + n % 64]
  else if n < 0x10000 then [0xE0 + n / 4096, 0x80 + n / 64 % 64, 0x80 + n % 64]
  else [0xF0 + n / 262144, 0x80 + n / 4096 % 64, 0x80 + n / 64 % 64, 0x80 + n % 64]

/-- Embedding of `s.encode('utf-8')` as a byte list. -/
def strUTF8 (s : String) : List Nat :=
  s.data.flatMap utf8Bytes

/-- Complete Local Name element (capture.py lines 29-34): emitted only
when `device.name` is truthy (present and non-empty); the UTF-8 bytes
are capped at 29 (`[:29]`) and the element is skipped if that leaves
zero bytes. -/
def nameElement (name : Option String) : List Nat :=
  match name with
  | none => []
  | some s =>
    if s = "" then []
    else
      let nb := (strUTF8 s).take 29
      if nb.length > 0 then (nb.length + 1) :: 0x09 :: nb else []

/-- One Service UUIDs element (capture.py lines 39-51): `[0x03, 0x03]`
plus the packed 16-bit UUID, or nothing when parsing raises. -/
def uuidElem (s : String) : List Nat :=
  match parse16? s with
  | some v => [0x03, 0x03] ++ pack16 v
  | none => []

/-- All Service UUIDs elements, in encounter order. -/
def uuidElems (us : List String) : List Nat :=
  us.flatMap uuidElem

/-- One Service Data element (capture.py lines 55-65): parse the UUID's
first dash group, compute `2 + len(data) + 1`, and emit
`[len, 0x16] ++ uuid ++ data` only when that length is at most 31;
a parse failure is swallowed by `except: pass`. -/
def serviceDataElem (u : String) (d : List Nat) : List Nat :=
  match sdParse16? u with
  | some v =>
    if 2 + d.length + 1 ≤ 31 then (2 + d.length + 1) :: 0x16 :: (pack16 v ++ d)
    else []
  | none => []

/-- All Service Data elements, in encounter order. -/
def serviceDataElems (ps : List (String × List Nat)) : List Nat :=
  ps.flatMap (fun p => serviceDataElem p.1 p.2)

/-- One Manufacturer Data element (capture.py lines 69-75): emit
`[len, 0xFF] ++ companyId ++ data` only when `2 + len(data) + 1 ≤ 31`. -/
def manuElem (cid : Nat) (d : List Nat) : List Nat :=
  if 2 + d.length + 1 ≤ 31 then (2 + d.length + 1) :: 0xFF :: (pack16 cid ++ d)
  else []

/-- All Manufacturer Data elements, in encounter order. -/
def manuElems (ps : List (Nat × List Nat)) : List Nat :=
  ps.flatMap (fun p => manuElem p.1 p.2)

/-- The full `ad_data` concatenation before the 31-byte cut
(capture.py lines 23-75): Flags, Local Name, Service UUIDs,
Service Data, Manufacturer Data, in that fixed order. -/
def adConcat (device : Device) (adv : AdvData) : List Nat :=
  [0x02, 0x01, 0x06]
    ++ nameElement device.name
    ++ uuidElems adv.service_uuids
    ++ serviceDataElems adv.service_data
    ++ manuElems adv.manufacturer_data

/-- The encoded payload (`ad_data` after lines 77-79): hard-truncated to
the first 31 bytes when the concatenation is longer. -/
def encode (device : Device) (adv : AdvData) : List Nat :=
  let ad := adConcat device adv
  if ad.length > 31 then ad.take 31 else ad

/-- Embedding of `f'{b:02X}'` for byte values: two uppercase hex digits.
Exact for `b < 256`, which holds for every formatted value (payload
bytes and the data length, which is at most 31). -/
def hexChar (n : Nat) : Char :=
  if n < 10 then Char.ofNat (48 + n) else Char.ofNat (55 + n)

def toHex2 (n : Nat) : String :=
  ⟨[hexChar (n / 16 % 16), hexChar (n % 16)]⟩

/-- An uppercase hexadecimal digit, the only characters `toHex2` emits. -/
def isUpperHexDig (c : Char) : Bool :=
  c.isDigit || ('A' ≤ c && c ≤ 'F')

/-- The `hci_params` token list (capture.py line 87): the data length
followed by the payload zero-padded to exactly 31 bytes, each formatted
as two uppercase hex digits. -/
def hciParams (p : List Nat) : List String :=
  toHex2 p.length :: (p ++ List.replicate (31 - p.length) 0).map toHex2

/-- Embedding of Python `' '.join(tokens)`. -/
def joinSpaces : List String → String
  | [] => ""
  | [t] => t
  | t :: ts => t ++ " " ++ joinSpaces ts

/-- The `hci_cmd` string (capture.py line 88). -/
def mkCmd (p : List Nat) : String :=
  "sudo hcitool -i hci0 cmd 0x08 0x0008 " ++ joinSpaces (hciParams p)

/-- Splitting a character list at every space, keeping empty pieces:
the view of a command string as whitespace-separated tokens (the
command contains single spaces only, so this agrees with Python
`str.split()`). -/
def splitSpacesAux : List Char → List Char → List String
  | [], acc => [⟨acc.reverse⟩]
  | c :: cs, acc =>
    if c = ' ' then ⟨acc.reverse⟩ :: splitSpacesAux cs []
    else splitSpacesAux cs (c :: acc)

/-- The space-separated tokens of a string. -/
def spaceTokens (s : String) : List String :=
  splitSpacesAux s.data []

/-- Command generation (capture.py lines 82-91): no command when the
payload is empty, otherwise the full `hcitool` invocation string. -/
def toCommand (p : List Nat) : Option String :=
  if p = [] then none else some (mkCmd p)

/-- Embedding of `parse_advertisement_data`: the returned `packet_info`
dictionary. `device.name or 'Unknown'` yields `"Unknown"` when the name
is absent or empty; `raw_data`/`hci_cmd` keep their initial values
(`[]`/`""`) only when `ad_data` is empty, which never happens. -/
def parsePacket (device : Device) (adv : AdvData) (now : Nat) : Packet :=
  let ad := encode device adv
  { timestamp := now
    address := device.address
    name := match device.name with
            | none => "Unknown"
            | some s => if s = "" then "Unknown" else s
    rssi := adv.rssi
    raw_data := ad
    hci_cmd := (toCommand ad).getD "" }

/-- The dedup step of `detection_callback` (capture.py lines 109-119):
find the first stored packet with the same address and byte-identical
`raw_data`; update its timestamp and rssi in place, or append the new
packet at the end. -/
def observeAux (store : List Packet) (pkt : Packet) : List Packet :=
  match store with
  | [] => [pkt]
  | p :: ps =>
    if p.address = pkt.address ∧ p.raw_data = pkt.raw_data then
      { p with timestamp := pkt.timestamp, rssi := pkt.rssi } :: ps
    else
      p :: observeAux ps pkt

/-- One observation event reaching `detection_callback` (after the
name/address filters, which drop the event before any store access). -/
def observe (store : List Packet) (device : Device) (adv : AdvData) (now : Nat) : List Packet :=
  observeAux store (parsePacket device adv now)

/-- One entry of `get_hci_commands` (capture.py lines 159-169). -/
structure CmdEntry where
  name : String
  address : String
  command : String
  deriving DecidableEq

/-- Embedding of `get_hci_commands`: every packet with a non-empty
command, in store order. -/
def get_hci_commands (store : List Packet) : List CmdEntry :=
  (store.filter (fun p => p.hci_cmd ≠ "")).map
    (fun p => { name := p.name, address := p.address, command := p.hci_cmd })

/-- Outcome of `replay_packet`, per the spec's replay taxonomy; the
Python function communicates these via prints. -/
inductive ReplayOutcome where
  | success
  | executionFailed (diagnostics : String)
  | launchError (cause : String)
  | noCommand
  | indexOutOfRange
  deriving DecidableEq

/-- Embedding of `replay_packet` (capture.py lines 171-193). The external
process layer is a parameter `run` returning either a launch failure
(exception from `subprocess.run`) or an exit code with stderr. The
result records the outcome, the list of commands handed to the external
layer, and the store after the call (never modified). -/
def replay_packet (store : List Packet) (index : Int)
    (run : String → Except String (Int × String)) :
    ReplayOutcome × List String × List Packet :=
  if h : 0 ≤ index ∧ index < (store.length : Int) then
    let packet := store.get ⟨index.toNat, by omega⟩
    if packet.hci_cmd ≠ "" then
      match run packet.hci_cmd with
      | Except.ok (rc, err) =>
        if rc = 0 then (ReplayOutcome.success, [packet.hci_cmd], store)
        else (ReplayOutcome.executionFailed err, [packet.hci_cmd], store)
      | Except.error e => (ReplayOutcome.launchError e, [packet.hci_cmd], store)
    else (ReplayOutcome.noCommand, [], store)
  else (ReplayOutcome.indexOutOfRange, [], store)

/-! Concrete fixtures: the spec's test scenario and small inputs used by
witnesses. -/

/-- The spec's concrete scenario device: address AA:BB:CC:DD:EE:FF, name
"Test". -/
def testDevice : Device :=
  { address := "AA:BB:CC:DD:EE:FF", name := some "Test" }

/-- The spec's concrete scenario advertisement: rssi -42, no UUIDs, no
service data, no manufacturer data. -/
def testAdv : AdvData :=
  { rssi := -42, service_uuids := [], service_data := [], manufacturer_data := [] }

/-- A device reporting no name (Python `device.name is None`). -/
def anonDevice : Device :=
  { address := "AA:BB:CC:DD:EE:FF", name := none }

/-- An advertisement carrying a single canonical 128-bit UUID string. -/
def uuidAdv : AdvData :=
  { rssi := -42
    service_uuids := ["0000180f-0000-1000-8000-00805f9b34fb"]
    service_data := []
    manufacturer_data := [] }

/-- The packet produced by the spec's concrete scenario at tick 0. -/
def pkt0 : Packet := parsePacket testDevice testAdv 0

/-- An external process layer that always fails to launch. -/
def runFail : String → Except String (Int × String) :=
  fun _ => Except.error "adapter unavailable"

/-! Helper lemmas shared by the claim theorems. -/

/-- The truncation branch of the encoder, as one equation: the payload is
always the first 31 bytes of the concatenation (taking all of it when it
is short enough). -/
theorem encode_eq_take31 (d : Device) (a : AdvData) :
    encode d a = (adConcat d a).take 31 := by
  by_cases h : (adConcat d a).length > 31
  · simp [encode, h]
  · have h' : (adConcat d a).length ≤ 31 := by omega
    simp [encode, h, List.take_of_length_le h']

theorem adConcat_cons (d : Device) (a : AdvData) :
    adConcat d a = 0x02 :: 0x01 :: 0x06 ::
      (nameElement d.name ++ uuidElems a.service_uuids
        ++ serviceDataElems a.service_data ++ manuElems a.manufacturer_data) := by
  simp [adConcat]

/-- C1: every encoded payload begins with exactly the Flags bytes
02 01 06, its length lies between 3 and 31, and it is exactly the first
31 bytes of the element concatenation — hard truncation that ignores
element boundaries. -/
theorem flags_and_length_invariant (d : Device) (a : AdvData) :
    (encode d a).take 3 = [0x02, 0x01, 0x06] ∧
    3 ≤ (encode d a).length ∧
    (encode d a).length ≤ 31 ∧
    encode d a = (adConcat d a).take 31 ∧
    (encode d a).length = min (adConcat d a).length 31 := by
  obtain ⟨t, hc⟩ : ∃ t, adConcat d a = 0x02 :: 0x01 :: 0x06 :: t :=
    ⟨_, adConcat_cons d a⟩
  have ht := encode_eq_take31 d a
  have hlen : (adConcat d a).length = t.length + 3 := by
    rw [hc]; simp
  have hlt : (encode d a).length = min 31 (adConcat d a).length := by
    rw [ht, List.length_take]
  refine ⟨?_, by omega, by omega, ht, by omega⟩
  rw [ht, List.take_take]
  norm_num
  rw [hc]
  rfl

theorem utf8Bytes_ne_nil (c : Char) : utf8Bytes c ≠ [] := by
  simp only [utf8Bytes]
  split
  · simp
  · split
    · simp
    · split <;> simp

theorem strUTF8_ne_nil (s : String) (h : s ≠ "") : strUTF8 s ≠ [] := by
  have hd : s.data ≠ [] := by
    intro he
    exact h (String.ext (by simp [he]))
  cases hds : s.data with
  | nil => exact absurd hds hd
  | cons c cs =>
    simp only [strUTF8, hds, List.flatMap_cons, ne_eq, List.append_eq_nil]
    intro hh
    exact utf8Bytes_ne_nil c hh.1

theorem nameElement_some (s : String) (hs : s ≠ "") :
    nameElement (some s) =
      (((strUTF8 s).take 29).length + 1) :: 0x09 :: (strUTF8 s).take 29 := by
  have h0 : strUTF8 s ≠ [] := strUTF8_ne_nil s hs
  have h1 : ((strUTF8 s).take 29).length > 0 := by
    rw [List.length_take]
    have := List.length_pos.mpr h0
    omega
  simp [nameElement, hs, h1, h0]

/-- C8: the Complete Local Name element is emitted iff the name is
present and non-empty; its payload is the UTF-8 name hard-capped to 29
bytes, its length byte is payload length + 1, its type byte 0x09; with
an absent or empty name nothing is contributed to the payload. -/
theorem local_name_element (d : Device) (a : AdvData) :
    (nameElement d.name = [] ↔ d.name = none ∨ d.name = some "") ∧
    (∀ s : String, d.name = some s → s ≠ "" →
      nameElement d.name =
        (((strUTF8 s).take 29).length + 1) :: 0x09 :: (strUTF8 s).take 29) ∧
    adConcat d a = [0x02, 0x01, 0x06] ++ nameElement d.name
      ++ uuidElems a.service_uuids ++ serviceDataElems a.service_data
      ++ manuElems a.manufacturer_data := by
  refine ⟨?_, ?_, by simp [adConcat]⟩
  · cases hn : d.name with
    | none => simp [nameElement]
    | some s =>
      by_cases hs : s = ""
      · subst hs; simp [nameElement]
      · rw [nameElement_some s hs]
        simp [hs]
  · intro s hsome hs
    rw [hsome, nameElement_some s hs]

theorem local_name_element_witness :
    nameElement testDevice.name =
      (((strUTF8 "Test").take 29).length + 1) :: 0x09 :: (strUTF8 "Test").take 29 :=
  (local_name_element testDevice testAdv).2.1 "Test" rfl (by decide)

/-- C10: an absent device name is stored as the literal "Unknown" in the
captured packet, while no Complete Local Name element is added to the
encoded payload. -/
theorem unknown_name_default (d : Device) (a : AdvData) (now : Nat)
    (h : d.name = none) :
    (parsePacket d a now).name = "Unknown" ∧
    nameElement d.name = [] ∧
    encode d a = ([0x02, 0x01, 0x06] ++ uuidElems a.service_uuids
      ++ serviceDataElems a.service_data ++ manuElems a.manufacturer_data).take 31 := by
  refine ⟨by simp [parsePacket, h], by simp [nameElement, h], ?_⟩
  rw [encode_eq_take31]
  simp [adConcat, nameElement, h]

theorem unknown_name_default_witness :
    (parsePacket anonDevice testAdv 3).name = "Unknown" ∧
    nameElement anonDevice.name = [] ∧
    encode anonDevice testAdv = ([0x02, 0x01, 0x06]
      ++ uuidElems testAdv.service_uuids ++ serviceDataElems testAdv.service_data
      ++ manuElems testAdv.manufacturer_data).take 31 :=
  unknown_name_default anonDevice testAdv 3 rfl

/-- C9: replay with an index outside the store's bounds (any index on an
empty store, any negative index) yields IndexOutOfRange, hands nothing
to the external process layer, and leaves the store unchanged. -/
theorem replay_index_out_of_range (store : List Packet) (index : Int)
    (run : String → Except String (Int × String))
    (h : ¬ (0 ≤ index ∧ index < (store.length : Int))) :
    replay_packet store index run = (ReplayOutcome.indexOutOfRange, [], store) := by
  rw [replay_packet, dif_neg h]

theorem replay_index_out_of_range_witness :
    replay_packet [] 0 runFail = (ReplayOutcome.indexOutOfRange, [], []) ∧
    replay_packet [pkt0] (-1) runFail = (ReplayOutcome.indexOutOfRange, [], [pkt0]) :=
  ⟨replay_index_out_of_range [] 0 runFail (by decide),
   replay_index_out_of_range [pkt0] (-1) runFail (by decide)⟩

/-- C5: no command exactly for the empty payload; otherwise the command
is the fixed hcitool prefix with opcodes 0x08 0x0008, the two-hex-digit
uppercase data length, and the payload zero-padded to 31 bytes, each
byte as two uppercase hex digits joined by single spaces. In the spec's
concrete scenario the payload is 02 01 06 05 09 54 65 73 74 and the
command ends with 09, those 9 bytes, and 22 zero bytes. -/
theorem toCommand_format (p : List Nat) :
    (toCommand p = none ↔ p = []) ∧
    toCommand p = (if p = [] then none
      else some ("sudo hcitool -i hci0 cmd 0x08 0x0008 " ++
        joinSpaces (toHex2 p.length ::
          (p ++ List.replicate (31 - p.length) 0).map toHex2))) ∧
    encode testDevice testAdv = [0x02, 0x01, 0x06, 0x05, 0x09, 0x54, 0x65, 0x73, 0x74] ∧
    toCommand [0x02, 0x01, 0x06, 0x05, 0x09, 0x54, 0x65, 0x73, 0x74] =
      some ("sudo hcitool -i hci0 cmd 0x08 0x0008 " ++
        "09 02 01 06 05 09 54 65 73 74 00 00 00 00 00 00 00 00 00 00 00 00 00 00 00 00 00 00 00 00 00 00") := by
  refine ⟨?_, rfl, by decide, by decide⟩
  by_cases hp : p = [] <;> simp [toCommand, hp]

theorem toCommand_format_witness : toCommand [] = none :=
  (toCommand_format []).1.mpr rfl

/-- C6: a 36-character UUID string parses as its first dash-delimited
group masked to 16 bits, any other string parses whole masked to 16
bits; each parsed UUID contributes its own element 03 03 followed by
the 2-byte little-endian UUID; the canonical Battery Service UUID
string yields the element 03 03 0F 18. -/
theorem uuid16_parse_rule (s : String) (us : List String) :
    parse16? s = (if s.length = 36
      then (hexVal? (firstDashGroup s)).map (fun v => v % 65536)
      else (hexVal? s).map (fun v => v % 65536)) ∧
    uuidElems (s :: us) =
      (match parse16? s with
        | some v => 0x03 :: 0x03 :: pack16 v
        | none => []) ++ uuidElems us ∧
    parse16? "0000180f-0000-1000-8000-00805f9b34fb" = some 0x180F ∧
    encode anonDevice uuidAdv = [0x02, 0x01, 0x06, 0x03, 0x03, 0x0F, 0x18] := by
  refine ⟨rfl, ?_, by decide, by decide⟩
  cases h : parse16? s <;> simp [uuidElems, uuidElem, h, pack16]

/-- C3: a serviceUUIDs entry or a serviceData key whose UUID fails to
parse is skipped silently: removing it leaves every element — and the
whole encoded payload — unchanged, and the remaining entries are still
processed. -/
theorem encoder_skips_malformed_uuid
    (us₁ us₂ : List String) (u : String) (hu : parse16? u = none)
    (ps₁ ps₂ : List (String × List Nat)) (v : String) (d : List Nat)
    (hv : sdParse16? v = none) :
    uuidElems (us₁ ++ u :: us₂) = uuidElems (us₁ ++ us₂) ∧
    serviceDataElems (ps₁ ++ (v, d) :: ps₂) = serviceDataElems (ps₁ ++ ps₂) ∧
    ∀ (dev : Device) (r : Int) (md : List (Nat × List Nat)),
      encode dev { rssi := r, service_uuids := us₁ ++ u :: us₂,
                   service_data := ps₁ ++ (v, d) :: ps₂, manufacturer_data := md } =
      encode dev { rssi := r, service_uuids := us₁ ++ us₂,
                   service_data := ps₁ ++ ps₂, manufacturer_data := md } := by
  have h1 : uuidElems (us₁ ++ u :: us₂) = uuidElems (us₁ ++ us₂) := by
    simp [uuidElems, uuidElem, hu]
  have h2 : serviceDataElems (ps₁ ++ (v, d) :: ps₂) = serviceDataElems (ps₁ ++ ps₂) := by
    simp [serviceDataElems, serviceDataElem, hv]
  refine ⟨h1, h2, fun dev r md => ?_⟩
  rw [encode_eq_take31, encode_eq_take31]
  congr 1
  simp [adConcat, h1, h2]

theorem encoder_skips_malformed_uuid_witness :
    uuidElems (["180f"] ++ "zzzz" :: ["180a"]) = uuidElems (["180f"] ++ ["180a"]) :=
  (encoder_skips_malformed_uuid ["180f"] ["180a"] "zzzz" (by decide)
    [] [] "ghij" [] (by decide)).1

theorem observeAux_found (store : List Packet) (pkt : Packet)
    (h : ∃ p ∈ store, p.address = pkt.address ∧ p.raw_data = pkt.raw_data) :
    ∃ i, ∃ hi : i < store.length,
      (store.get ⟨i, hi⟩).address = pkt.address ∧
      (store.get ⟨i, hi⟩).raw_data = pkt.raw_data ∧
      observeAux store pkt =
        store.set i
          { store.get ⟨i, hi⟩ with timestamp := pkt.timestamp, rssi := pkt.rssi } := by
  induction store with
  | nil => simp at h
  | cons p ps ih =>
    by_cases hp : p.address = pkt.address ∧ p.raw_data = pkt.raw_data
    · exact ⟨0, Nat.succ_pos _, hp.1, hp.2, by simp [observeAux, hp]⟩
    · have h' : ∃ q ∈ ps, q.address = pkt.address ∧ q.raw_data = pkt.raw_data := by
        rcases h with ⟨q, hq, hqq⟩
        rcases List.mem_cons.mp hq with rfl | hmem
        · exact absurd hqq hp
        · exact ⟨q, hmem, hqq⟩
      rcases ih h' with ⟨i, hi, ha, hr, hobs⟩
      exact ⟨i + 1, Nat.succ_lt_succ hi, ha, hr, by simp [observeAux, hp, hobs]⟩

theorem observeAux_not_found (store : List Packet) (pkt : Packet)
    (h : ∀ p ∈ store, ¬(p.address = pkt.address ∧ p.raw_data = pkt.raw_data)) :
    observeAux store pkt = store ++ [pkt] := by
  induction store with
  | nil => rfl
  | cons p ps ih =>
    have hp : ¬(p.address = pkt.address ∧ p.raw_data = pkt.raw_data) := h p (by simp)
    simp [observeAux, hp, ih (fun q hq => h q (by simp [hq]))]

/-- C2: a repeated observation with the same address and byte-identical
payload keeps the store's size and the packet's position, changing
only that packet's timestamp and rssi while preserving its name,
payload, and command string; only a novel (address, payload) key makes
a fresh packet, appended at the end with a freshly generated command. -/
theorem observe_dedup_update (store : List Packet) (d : Device) (a : AdvData) (now : Nat) :
    ((∃ p ∈ store, p.address = d.address ∧ p.raw_data = encode d a) →
      ∃ i, ∃ hi : i < store.length,
        (store.get ⟨i, hi⟩).address = d.address ∧
        (store.get ⟨i, hi⟩).raw_data = encode d a ∧
        observe store d a now =
          store.set i { store.get ⟨i, hi⟩ with timestamp := now, rssi := a.rssi } ∧
        (observe store d a now).length = store.length ∧
        ({ store.get ⟨i, hi⟩ with timestamp := now, rssi := a.rssi }).name
          = (store.get ⟨i, hi⟩).name ∧
        ({ store.get ⟨i, hi⟩ with timestamp := now, rssi := a.rssi }).raw_data
          = (store.get ⟨i, hi⟩).raw_data ∧
        ({ store.get ⟨i, hi⟩ with timestamp := now, rssi := a.rssi }).hci_cmd
          = (store.get ⟨i, hi⟩).hci_cmd) ∧
    ((∀ p ∈ store, ¬(p.address = d.address ∧ p.raw_data = encode d a)) →
      observe store d a now = store ++ [parsePacket d a now]) := by
  constructor
  · intro h
    rcases observeAux_found store (parsePacket d a now) h with ⟨i, hi, ha, hr, hobs⟩
    refine ⟨i, hi, ha, hr, hobs, ?_, rfl, rfl, rfl⟩
    show (observeAux store (parsePacket d a now)).length = store.length
    rw [hobs, List.length_set]
  · intro h
    exact observeAux_not_found store (parsePacket d a now) h

theorem observe_dedup_update_witness :
    ∃ i, ∃ hi : i < [pkt0].length,
      ([pkt0].get ⟨i, hi⟩).address = testDevice.address ∧
      ([pkt0].get ⟨i, hi⟩).raw_data = encode testDevice testAdv ∧
      observe [pkt0] testDevice testAdv 5 =
        [pkt0].set i { [pkt0].get ⟨i, hi⟩ with timestamp := 5, rssi := testAdv.rssi } ∧
      (observe [pkt0] testDevice testAdv 5).length = [pkt0].length ∧
      ({ [pkt0].get ⟨i, hi⟩ with timestamp := 5, rssi := testAdv.rssi }).name
        = ([pkt0].get ⟨i, hi⟩).name ∧
      ({ [pkt0].get ⟨i, hi⟩ with timestamp := 5, rssi := testAdv.rssi }).raw_data
        = ([pkt0].get ⟨i, hi⟩).raw_data ∧
      ({ [pkt0].get ⟨i, hi⟩ with timestamp := 5, rssi := testAdv.rssi }).hci_cmd
        = ([pkt0].get ⟨i, hi⟩).hci_cmd :=
  (observe_dedup_update [pkt0] testDevice testAdv 5).1 ⟨pkt0, by simp, rfl, rfl⟩

/-- C7 counterexample: a service-data pair with an unparseable UUID and
encoded length within the bound emits no element, so "emitted if and
only if the length is at most 31" fails as stated. -/
theorem data_element_emission_cex :
    ¬ ((serviceDataElems [("zzzz", ([] : List Nat))] ≠ []) ↔
        2 + ([] : List Nat).length + 1 ≤ 31) := by decide

/-- C7 (amended): for every service-data pair whose UUID parses, and for
every manufacturer-data pair, an element is emitted iff its encoded
length 2 + len(data) + 1 is at most 31; an oversize entry is dropped
whole, never truncated; an emitted element is the computed length byte,
the type byte 0x16 or 0xFF, the 2-byte little-endian UUID or company
id, then the raw data; each pair contributes independently. -/
theorem data_element_emission
    (u : String) (w : Nat) (hu : sdParse16? u = some w) (d : List Nat)
    (cid : Nat) (e : List Nat)
    (ps : List (String × List Nat)) (ms : List (Nat × List Nat)) :
    (serviceDataElem u d ≠ [] ↔ 2 + d.length + 1 ≤ 31) ∧
    (2 + d.length + 1 ≤ 31 →
      serviceDataElem u d = (2 + d.length + 1) :: 0x16 :: (pack16 w ++ d)) ∧
    (31 < 2 + d.length + 1 → serviceDataElem u d = []) ∧
    (manuElem cid e ≠ [] ↔ 2 + e.length + 1 ≤ 31) ∧
    (2 + e.length + 1 ≤ 31 →
      manuElem cid e = (2 + e.length + 1) :: 0xFF :: (pack16 cid ++ e)) ∧
    (31 < 2 + e.length + 1 → manuElem cid e = []) ∧
    serviceDataElems ((u, d) :: ps) = serviceDataElem u d ++ serviceDataElems ps ∧
    manuElems ((cid, e) :: ms) = manuElem cid e ++ manuElems ms := by
  refine ⟨?_, ?_, ?_, ?_, ?_, ?_, by simp [serviceDataElems], by simp [manuElems]⟩ <;>
    by_cases hd : 2 + d.length + 1 ≤ 31 <;> by_cases he : 2 + e.length + 1 ≤ 31 <;>
    simp [serviceDataElem, manuElem, hu, hd, he]

theorem data_element_emission_witness :
    serviceDataElem "180f" [1] = (2 + [1].length + 1) :: 0x16 :: (pack16 6159 ++ [1]) :=
  ((data_element_emission "180f" 6159 (by decide) [1] 76 [1, 2] [] []).2.1) (by decide)

theorem hexChar_upperHex (m : Nat) (h : m < 16) : isUpperHexDig (hexChar m) = true := by
  interval_cases m <;> decide

theorem upperHex_ne_space (c : Char) (h : isUpperHexDig c = true) : c ≠ ' ' := by
  intro he
  subst he
  exact absurd h (by decide)

theorem toHex2_all_upperHex (n : Nat) : ∀ c ∈ (toHex2 n).data, isUpperHexDig c = true := by
  intro c hc
  have h1 : n / 16 % 16 < 16 := Nat.mod_lt _ (by norm_num)
  have h2 : n % 16 < 16 := Nat.mod_lt _ (by norm_num)
  have hd : (toHex2 n).data = [hexChar (n / 16 % 16), hexChar (n % 16)] := rfl
  rw [hd] at hc
  simp at hc
  rcases hc with rfl | rfl
  · exact hexChar_upperHex _ h1
  · exact hexChar_upperHex _ h2

theorem hciParams_no_space (p : List Nat) :
    ∀ u ∈ hciParams p, ∀ c ∈ u.data, c ≠ ' ' := by
  intro u hu c hc
  have hx : isUpperHexDig c = true := by
    rcases List.mem_cons.mp hu with rfl | hm
    · exact toHex2_all_upperHex _ c hc
    · rcases List.mem_map.mp hm with ⟨b, _, rfl⟩
      exact toHex2_all_upperHex _ c hc
  exact upperHex_ne_space c hx

theorem splitSpacesAux_nospace (l : List Char) (hl : ∀ c ∈ l, c ≠ ' ') (acc : List Char) :
    splitSpacesAux l acc = [⟨acc.reverse ++ l⟩] := by
  induction l generalizing acc with
  | nil => simp [splitSpacesAux]
  | cons c cs ih =>
    have hc : c ≠ ' ' := hl c (by simp)
    rw [splitSpacesAux, if_neg hc, ih (fun x hx => hl x (by simp [hx]))]
    have hrev : ((c :: acc).reverse ++ cs : List Char) = acc.reverse ++ c :: cs := by simp
    rw [hrev]

theorem splitSpacesAux_token (t : List Char) (ht : ∀ c ∈ t, c ≠ ' ')
    (rest : List Char) (acc : List Char) :
    splitSpacesAux (t ++ ' ' :: rest) acc =
      ⟨acc.reverse ++ t⟩ :: splitSpacesAux rest [] := by
  induction t generalizing acc with
  | nil => simp [splitSpacesAux]
  | cons c cs ih =>
    have hc : c ≠ ' ' := ht c (by simp)
    rw [List.cons_append, splitSpacesAux, if_neg hc, ih (fun x hx => ht x (by simp [hx]))]
    have hrev : ((c :: acc).reverse ++ cs : List Char) = acc.reverse ++ c :: cs := by simp
    rw [hrev]

theorem spaceTokens_join (ts : List String) (t : String)
    (h : ∀ u ∈ t :: ts, ∀ c ∈ u.data, c ≠ ' ') (acc : List Char) :
    splitSpacesAux ((joinSpaces (t :: ts)).data) acc = ⟨acc.reverse ++ t.data⟩ :: ts := by
  induction ts generalizing t acc with
  | nil => exact splitSpacesAux_nospace t.data (h t (by simp)) acc
  | cons u us ih =>
    have hdata : (joinSpaces (t :: u :: us)).data =
        t.data ++ ' ' :: (joinSpaces (u :: us)).data := by
      show (t ++ " " ++ joinSpaces (u :: us)).data = _
      simp [String.data_append]
    rw [hdata, splitSpacesAux_token t.data (h t (by simp)) _ acc,
      ih u (fun x hx => h x (by simp [hx])) []]
    have hu : (⟨List.reverse [] ++ u.data⟩ : String) = u := String.ext (by simp)
    rw [hu]

theorem spaceTokens_joinSpaces (t : String) (ts : List String)
    (h : ∀ u ∈ t :: ts, ∀ c ∈ u.data, c ≠ ' ') :
    spaceTokens (joinSpaces (t :: ts)) = t :: ts := by
  rw [spaceTokens, spaceTokens_join ts t h []]
  have ht : (⟨List.reverse [] ++ t.data⟩ : String) = t := String.ext (by simp)
  rw [ht]

theorem mkCmd_eq_join (p : List Nat) :
    mkCmd p = joinSpaces ("sudo" :: "hcitool" :: "-i" :: "hci0" :: "cmd"
      :: "0x08" :: "0x0008" :: hciParams p) := rfl

theorem spaceTokens_mkCmd (p : List Nat) :
    spaceTokens (mkCmd p) = "sudo" :: "hcitool" :: "-i" :: "hci0" :: "cmd"
      :: "0x08" :: "0x0008" :: hciParams p := by
  rw [mkCmd_eq_join]
  refine spaceTokens_joinSpaces _ _ ?_
  intro u hu
  simp only [List.mem_cons] at hu
  rcases hu with rfl | rfl | rfl | rfl | rfl | rfl | rfl | hm
  · decide
  · decide
  · decide
  · decide
  · decide
  · decide
  · decide
  · exact hciParams_no_space p u hm

theorem toHex2_ok (n : Nat) :
    ((toHex2 n).length == 2 && (toHex2 n).data.all isUpperHexDig) = true := by
  have hall := toHex2_all_upperHex n
  simp only [Bool.and_eq_true, beq_iff_eq, List.all_eq_true]
  exact ⟨rfl, fun c hc => hall c hc⟩

/-- C4 counterexample: at the spec's concrete scenario the command
string carries 32, not 33, tokens after the opcode pair 0x08 0x0008. -/
theorem hci_token_count_cex :
    ¬ ((spaceTokens (mkCmd (encode testDevice testAdv))).drop 7).length = 33 := by
  decide

/-- C4 (amended): for every observation the command string carries
exactly 32 two-hex-digit tokens after the opcode pair 0x08 0x0008 —
one length token plus 31 data-byte tokens — regardless of the actual
payload length. -/
theorem hci_token_count (d : Device) (a : AdvData) :
    (spaceTokens (mkCmd (encode d a))).drop 7 = hciParams (encode d a) ∧
    (hciParams (encode d a)).length = 32 ∧
    (hciParams (encode d a)).all
      (fun t => t.length == 2 && t.data.all isUpperHexDig) = true := by
  have hb : (encode d a).length ≤ 31 := by
    rw [encode_eq_take31, List.length_take]
    omega
  refine ⟨?_, ?_, ?_⟩
  · rw [spaceTokens_mkCmd]
    rfl
  · simp [hciParams]
    omega
  · rw [List.all_eq_true]
    intro t ht
    rcases List.mem_cons.mp ht with rfl | hm
    · exact toHex2_ok _
    · rcases List.mem_map.mp hm with ⟨b, _, rfl⟩
      exact toHex2_ok _

end BLECapture
